import Mathlib

/-!
# Verification of the verilib structure scripts

A shallow embedding of the core logic of `scripts/structure.py`:

* the certificate ledger (`encode_name` / `decode_name` / the create-delete
  sync performed by `cmd_verify`),
* the blueprint verification-result extractor
  (`get_blueprint_verification_results`),
* the SCIP interval index (`generate_scip_index`) and the entry reconciler
  (`_update_entry_from_atoms`),
* the dependency-graph decoder (`get_dep_graph_string` / `get_dep_graph` and
  their helpers).

Python strings are modelled as `String` or as `List Char`; identifier byte
strings handled by `urllib.parse.quote`/`unquote` are modelled as `List Nat`
(each element a byte, i.e. the UTF-8 encoding of the Python `str`).  Python
dicts are modelled as association lists in insertion order, with
last-binding-wins lookup.  Sets of identifiers are `Finset`s.
-/

/-! ## Certificate ledger: name encoding (`encode_name` / `decode_name`)

`encode_name` is `urllib.parse.quote(name, safe='')`: every byte outside the
always-safe set (ASCII letters, digits, `_`, `.`, `-`, `~`) is written as
`%XX` with uppercase hexadecimal digits.  `decode_name` is
`urllib.parse.unquote`: a `%` followed by two hex digits becomes the
corresponding byte, any other `%` is kept literally.  We work over byte
lists; the output alphabet is represented by the character codes. -/

/-- The always-safe bytes of `urllib.parse.quote`: ASCII alphanumerics and
`_`, `.`, `-`, `~`.  (`safe=''`, so nothing else is exempt.) -/
def isAlwaysSafe (b : Nat) : Bool :=
  (65 ≤ b && b ≤ 90) || (97 ≤ b && b ≤ 122) || (48 ≤ b && b ≤ 57) ||
  b == 95 || b == 46 || b == 45 || b == 126

/-- Code of the uppercase hexadecimal digit for `n < 16`. -/
def hexDigitCode (n : Nat) : Nat :=
  if n < 10 then 48 + n else 55 + n

/-- Value of a hexadecimal digit code (upper or lower case), as accepted by
`urllib.parse.unquote`. -/
def hexVal (c : Nat) : Option Nat :=
  if 48 ≤ c && c ≤ 57 then some (c - 48)
  else if 65 ≤ c && c ≤ 70 then some (c - 55)
  else if 97 ≤ c && c ≤ 102 then some (c - 87)
  else none

/-- Percent-encoding of one byte, as in `urllib.parse.quote(name, safe='')`. -/
def encodeByte (b : Nat) : List Nat :=
  if isAlwaysSafe b then [b]
  else [37, hexDigitCode (b / 16), hexDigitCode (b % 16)]

/-- `encode_name(name)` over the byte string `bs` (code 37 is `%`). -/
def encode_name (bs : List Nat) : List Nat :=
  (bs.map encodeByte).flatten

/-- `decode_name(encoded)` = `urllib.parse.unquote`: scan for `%XX`. -/
def decode_name : List Nat → List Nat
  | [] => []
  | c :: rest =>
    if c = 37 then
      match rest with
      | c1 :: c2 :: rest2 =>
        match hexVal c1, hexVal c2 with
        | some h, some l => (16 * h + l) :: decode_name rest2
        | _, _ => 37 :: decode_name (c1 :: c2 :: rest2)
      | [c1] => 37 :: decode_name [c1]
      | [] => [37]
    else c :: decode_name rest

/-! ## Certificate ledger: the sync performed by `cmd_verify`

`cmd_verify` computes (writing `V` for the verified set, `F` for the failed
set, `S` for the structure names and `E` for the existing certs)

```
verified_in_structure = V & S
failed_in_structure   = F & S
to_create = verified_in_structure - E
to_delete = failed_in_structure & E
```

then creates a cert for each name of `to_create` in sorted order, deletes the
cert of each name of `to_delete` in sorted order (`delete_cert` reports the
path only when the file existed), and prints the resulting total
`len(E) + len(created) - len(deleted)`. -/

/-- Outcome of one `cmd_verify` cert sync. -/
structure SyncResult (α : Type) [LinearOrder α] where
  toCreate : Finset α
  toDelete : Finset α
  created : List α
  deleted : List α
  certsAfter : Finset α
  finalCount : Nat

/-- The cert-sync portion of `cmd_verify`, as a function of the verified set,
the failed set, the structure names (scope) and the existing certs. -/
def syncPlan {α : Type} [LinearOrder α] (verified failed scope existing : Finset α) :
    SyncResult α :=
  let toCreate := (verified ∩ scope) \ existing
  let toDelete := (failed ∩ scope) ∩ existing
  let created := toCreate.sort (· ≤ ·)
  let afterCreate := existing ∪ toCreate
  let deleted := (toDelete.sort (· ≤ ·)).filter (· ∈ afterCreate)
  { toCreate := toCreate
    toDelete := toDelete
    created := created
    deleted := deleted
    certsAfter := afterCreate \ toDelete
    finalCount := existing.card + created.length - deleted.length }

/-! ## Blueprint verification-result extractor

`get_blueprint_verification_results` walks the `blueprint.json` mapping and
partitions `veri:`-prefixed node ids by `term-status`. -/

/-- `BLUEPRINT_VERIFIED_STATUSES`. -/
def BLUEPRINT_VERIFIED_STATUSES : Finset String := {"fully-proved"}

/-- The `veri:`-prefixed name of a blueprint node id. -/
def veriName (id : String) : String := "veri:" ++ id

/-- `get_blueprint_verification_results` over the blueprint mapping, given as
an association list of `(node_id, term-status)` (the status is `none` when
the node record has no `term-status` key; Python reads it with
`node_info.get('term-status', '')`). -/
def getBlueprintVerificationResults :
    List (String × Option String) → Finset String × Finset String
  | [] => (∅, ∅)
  | (id, ts) :: rest =>
    let (v, f) := getBlueprintVerificationResults rest
    if ts.getD "" ∈ BLUEPRINT_VERIFIED_STATUSES then (insert (veriName id) v, f)
    else (v, insert (veriName id) f)

/-! ## SCIP interval index (`generate_scip_index`)

An atom record carries an optional `code-path` and optional
`code-text.lines-start` / `lines-end`.  `generate_scip_index` skips atoms
with a falsy `code-path` or missing line bounds, and otherwise inserts the
half-open interval `[lines-start, lines-end + 1)` keyed by the scip-name
into the tree of the atom's file.  We represent failure-free tree queries
directly over the flat atom collection, keeping the collection's order
(which is the discovery order of the atom batch). -/

/-- `code-text` of an atom: the optional 1-indexed inclusive line bounds. -/
structure CodeText where
  linesStart : Option Int
  linesEnd : Option Int
deriving DecidableEq

/-- One SCIP atom record (the fields `_update_entry_from_atoms` and
`generate_scip_index` read). -/
structure ScipAtom where
  codePath : Option String
  codeText : CodeText
deriving DecidableEq

/-- Python truthiness of an optional string (`None` and `""` are falsy). -/
def strTruthy : Option String → Bool
  | none => false
  | some s => s ≠ ""

/-- The intervals `generate_scip_index` stores for `file`: one
`(lines-start, lines-end + 1, scip-name)` triple per atom of that file with
complete line information, in discovery order.  Atoms with a falsy
`code-path` or missing bounds are skipped. -/
def scipIntervals (atoms : List (String × ScipAtom)) (file : String) :
    List (Int × Int × String) :=
  atoms.filterMap fun p =>
    match p.2.codePath, p.2.codeText.linesStart, p.2.codeText.linesEnd with
    | some f, some s, some e => if strTruthy (some f) ∧ f = file then some (s, e + 1, p.1) else none
    | _, _, _ => none

/-- `code_path in scip_index`: the file has at least one stored interval. -/
def indexHasFile (atoms : List (String × ScipAtom)) (file : String) : Bool :=
  ¬ scipIntervals atoms file = []

/-- `tree[line]` of the `IntervalTree` for `file`: all stored intervals that
contain `line` (half-open containment `begin ≤ line < end`). -/
def scipLookup (atoms : List (String × ScipAtom)) (file : String) (line : Int) :
    List (Int × Int × String) :=
  (scipIntervals atoms file).filter fun iv => iv.1 ≤ line ∧ line < iv.2.1

/-! ## Reconciler (`_update_entry_from_atoms`)

A structure entry has `code-path`, `code-line` and optionally `scip-name`.
The function returns `(updated_entry_or_None, error_or_None)` and prints
warnings; we collect the printed warnings in the result (the optional
`context` suffix of the Python messages is omitted — callers pass it only
for display). -/

/-- A structure entry, as read by `_update_entry_from_atoms`. -/
structure Entry where
  codePath : Option String
  codeLine : Option Int
  scipName : Option String
deriving DecidableEq

/-- The `(updated, error)` pair returned by `_update_entry_from_atoms`,
together with the warnings it prints. -/
structure UpdateOutcome where
  updated : Option Entry
  error : Option String
  warnings : List String
deriving DecidableEq

/-- Key lookup in the atom map (a Python dict keyed by scip-name). -/
def lookupAtom (atoms : List (String × ScipAtom)) (name : String) : Option ScipAtom :=
  (atoms.find? fun p => p.1 = name).map (·.2)

/-- Display of an optional string inside an f-string (`None` prints as
`None`). -/
def showOptStr : Option String → String
  | none => "None"
  | some s => s

/-- Display of an optional integer inside an f-string. -/
def showOptInt : Option Int → String
  | none => "None"
  | some n => toString n

/-- The `code-path mismatch` warning of the atom-id path. -/
def pathMismatchMsg (old new : Option String) : String :=
  "WARNING: code-path mismatch: '" ++ showOptStr old ++
  "' will be overwritten with '" ++ showOptStr new ++ "'"

/-- The `code-line mismatch` warning of the atom-id path. -/
def lineMismatchMsg (old new : Option Int) : String :=
  "WARNING: code-line mismatch: " ++ showOptInt old ++
  " will be overwritten with " ++ showOptInt new

/-- The warning printed when a recorded scip-name is absent from the atom
map. -/
def staleNameMsg (name : String) : String :=
  "WARNING: scip-name '" ++ name ++
  "' not found in scip_atoms, looking up by code-path/code-line"

/-- The warning printed when `code-path` or `code-line` is missing. -/
def missingFieldsMsg : String :=
  "WARNING: Missing code-path or code-line; scip-name will not be generated"

/-- The error returned when the entry's file has no intervals at all. -/
def fileNotInIndexMsg (f : String) : String :=
  "code-path '" ++ f ++ "' not found in scip_index"

/-- The error returned when no stored interval starts at the recorded
line. -/
def noExactMatchMsg (l : Int) (f : String) : String :=
  "No interval starting at line " ++ toString l ++ " in " ++ f

/-- The warning printed when several stored intervals start at the recorded
line. -/
def multiMatchMsg (l : Int) (f : String) : String :=
  "WARNING: Multiple intervals starting at line " ++ toString l ++ " in " ++ f

/-- The atom-id path of `_update_entry_from_atoms`: the atom map is ground
truth; recorded file/line are overwritten and a warning is printed per
differing field. -/
def atomIdResolve (entry : Entry) (atom : ScipAtom) : UpdateOutcome :=
  let aPath := atom.codePath
  let aLine := atom.codeText.linesStart
  let w1 := if entry.codePath ≠ aPath then [pathMismatchMsg entry.codePath aPath] else []
  let w2 := if entry.codeLine ≠ aLine then [lineMismatchMsg entry.codeLine aLine] else []
  { updated := some { entry with codePath := aPath, codeLine := aLine }
    error := none
    warnings := w1 ++ w2 }

/-- The position path of `_update_entry_from_atoms`: resolve by
`code-path` / `code-line` against the interval index. -/
def positionResolve (entry : Entry) (indexAtoms : List (String × ScipAtom))
    (staleWarnings : List String) : UpdateOutcome :=
  match entry.codePath, entry.codeLine with
  | some f, some l =>
    if f = "" then
      { updated := some entry, error := none, warnings := staleWarnings ++ [missingFieldsMsg] }
    else if ¬ indexHasFile indexAtoms f then
      { updated := none, error := some (fileNotInIndexMsg f), warnings := staleWarnings }
    else
      match (scipLookup indexAtoms f l).filter (fun iv => iv.1 = l) with
      | [] => { updated := none, error := some (noExactMatchMsg l f), warnings := staleWarnings }
      | iv :: rest =>
        { updated := some { entry with scipName := some iv.2.2 }
          error := none
          warnings := staleWarnings ++ if rest = [] then [] else [multiMatchMsg l f] }
  | _, _ =>
    { updated := some entry, error := none, warnings := staleWarnings ++ [missingFieldsMsg] }

/-- `_update_entry_from_atoms(entry, scip_index, scip_atoms)`.  `indexAtoms`
is the atom collection the interval index was built from and `scipAtoms` the
atom map (callers pass the same collection for both, but the code receives
them separately). -/
def updateEntryFromAtoms (entry : Entry) (indexAtoms scipAtoms : List (String × ScipAtom)) :
    UpdateOutcome :=
  match entry.scipName with
  | some sname =>
    if sname = "" then positionResolve entry indexAtoms []
    else
      match lookupAtom scipAtoms sname with
      | some atom => atomIdResolve entry atom
      | none => positionResolve entry indexAtoms [staleNameMsg sname]
  | none => positionResolve entry indexAtoms []

/-- Is the entry's recorded atom id usable (truthy and present in the atom
map)?  When false, `_update_entry_from_atoms` resolves by position. -/
def usableAtomId (entry : Entry) (scipAtoms : List (String × ScipAtom)) : Bool :=
  match entry.scipName with
  | some sname => sname ≠ "" ∧ (lookupAtom scipAtoms sname).isSome
  | none => false

/-! ## Graph decoder: character-level helpers

`get_dep_graph_string` / `get_dep_graph` work over Python strings; we model
them over `List Char`.  Python `str.strip()` strips the six ASCII whitespace
characters; `str.strip(chars)` strips any of the given characters from both
ends. -/

/-- The whitespace characters stripped by Python `str.strip()`. -/
def isPySpace (c : Char) : Bool :=
  c = ' ' || c = '\t' || c = '\n' || c = '\x0d' || c = '\x0b' || c = '\x0c'

/-- Drop trailing characters satisfying `p`. -/
def dropTrailing (p : Char → Bool) (l : List Char) : List Char :=
  (l.reverse.dropWhile p).reverse

/-- Python `s.strip()`. -/
def pstrip (l : List Char) : List Char :=
  dropTrailing isPySpace (l.dropWhile isPySpace)

/-- Python `s.strip(cs)`: strip any of the characters `cs` from both ends. -/
def stripSet (cs : List Char) (l : List Char) : List Char :=
  dropTrailing (cs.contains ·) (l.dropWhile (cs.contains ·))

/-- The quote characters stripped from node ids and attribute values
(`'"\''`). -/
def quoteChars : List Char := ['"', Char.ofNat 39]

/-- Does `hay` contain `pat` as a contiguous substring (Python `in`)? -/
def containsSub (pat : List Char) : List Char → Bool
  | [] => pat.isPrefixOf []
  | c :: rest => pat.isPrefixOf (c :: rest) || containsSub pat rest

/-- Split `hay` at the first occurrence of `pat`: the part before it and the
part after it (Python `find` + slicing).  `none` when `pat` does not
occur. -/
def splitFirstSub (pat : List Char) : List Char → Option (List Char × List Char)
  | [] => if pat.isPrefixOf [] then some ([], []) else none
  | c :: rest =>
    if pat.isPrefixOf (c :: rest) then some ([], (c :: rest).drop pat.length)
    else
      match splitFirstSub pat rest with
      | some (pre, post) => some (c :: pre, post)
      | none => none

/-- The suffix of `hay` starting at the first occurrence of `pat`
(`script_text[start_pos:]`). -/
def suffixFrom (pat : List Char) : List Char → List Char
  | [] => []
  | c :: rest => if pat.isPrefixOf (c :: rest) then c :: rest else suffixFrom pat rest

/-- Index of the last occurrence of `c` (Python `rfind`). -/
def lastIdxOf (c : Char) (l : List Char) : Option Nat :=
  match l.reverse.findIdx? (· = c) with
  | some i => some (l.length - 1 - i)
  | none => none

/-- Python `s.split(sep)` for a one-character separator (keeps empty
pieces). -/
def splitOn (sep : Char) : List Char → List (List Char)
  | [] => [[]]
  | c :: rest =>
    let r := splitOn sep rest
    if c = sep then [] :: r
    else
      match r with
      | [] => [[c]]
      | h :: t => (c :: h) :: t

/-! ## Graph decoder: `get_dep_graph_string`

The Python code looks for the first script whose text contains the marker
`.renderDot(`strict digraph`, slices the text from the first occurrence of
that marker, and then matches the regular expression
`\.renderDot\(`([^`]*)`\)` in the slice: the payload is the backtick-free
run between `.renderDot(` + backtick and the next backtick, which must be
followed by `)`; failing that, the search continues at later occurrences,
and a script without a match falls through to the next script. -/

/-- The literal marker that identifies the graph-bearing script. -/
def depGraphMarker : List Char := ".renderDot(`strict digraph".data

/-- `.renderDot(` followed by a backtick — the opening of the payload. -/
def dotCallOpen : List Char := ".renderDot(`".data

/-- Search for `\.renderDot\(`([^`]*)`\)` and return the payload of the
first match (backtick is `'\x60'`). -/
def findDotPayload : List Char → Option (List Char)
  | [] => none
  | c :: rest =>
    if dotCallOpen.isPrefixOf (c :: rest) then
      let after := (c :: rest).drop dotCallOpen.length
      let payload := after.takeWhile (· ≠ '\x60')
      match after.dropWhile (· ≠ '\x60') with
      | '\x60' :: ')' :: _ => some payload
      | _ => findDotPayload rest
    else findDotPayload rest

/-- The extraction attempted on one script text. -/
def extractFromScript (s : List Char) : Option (List Char) :=
  if containsSub depGraphMarker s then findDotPayload (suffixFrom depGraphMarker s)
  else none

/-- `get_dep_graph_string`, over the text contents of the document's script
elements. -/
def getDepGraphString : List (List Char) → Option (List Char)
  | [] => none
  | s :: rest =>
    match extractFromScript s with
    | some p => some p
    | none => getDepGraphString rest

/-! ## Graph decoder: attribute and statement parsing -/

/-- Lookup in a Python dict built by inserting the listed bindings in order
(a later binding for the same key overwrites the earlier one). -/
def dictLookup {α : Type} (l : List (String × α)) (k : String) : Option α :=
  (l.reverse.find? fun p => p.1 = k).map (·.2)

/-- Does the dict contain the key (Python `in`)? -/
def containsKey {α : Type} (l : List (String × α)) (k : String) : Bool :=
  l.any fun p => p.1 = k

/-- Insertion into a Python dict modelled as an association list in
insertion order: overwriting keeps the key's original position. -/
def dictInsert {α : Type} (l : List (String × α)) (k : String) (v : α) :
    List (String × α) :=
  if containsKey l k then l.map fun p => if p.1 = k then (k, v) else p
  else l ++ [(k, v)]

/-- `parse_attributes`: strip surrounding brackets, split on `,`, keep the
pieces containing `=`, split each at the first `=`, strip the key, and strip
whitespace then quotes from the value. -/
def parseAttributes (s : List Char) : List (String × String) :=
  (splitOn ',' (stripSet ['[', ']'] s)).foldl
    (fun acc piece =>
      let piece := pstrip piece
      if piece.contains '=' then
        let key := pstrip (piece.takeWhile (· ≠ '='))
        let value := stripSet quoteChars (pstrip ((piece.dropWhile (· ≠ '=')).drop 1))
        dictInsert acc key.asString value.asString
      else acc)
    []

/-- `parse_node_element`: the id is the stripped, unquoted text before the
first `[`; the attribute string runs from the first `[` to the last `]`. -/
def parseNodeElement (line : List Char) : Option (String × List (String × String)) :=
  match line.findIdx? (· = '[') with
  | none => none
  | some bracketPos =>
    let nodeId := (stripSet quoteChars (pstrip (line.take bracketPos))).asString
    match lastIdxOf ']' line with
    | none => some (nodeId, [])
    | some endIdx => some (nodeId, parseAttributes ((line.take (endIdx + 1)).drop bracketPos))

/-- A parsed edge statement. -/
structure EdgeRec where
  source : String
  target : String
  attrs : List (String × String)
deriving DecidableEq

/-- `parse_edge_element`: split at the first `->`; the target is the
remaining text before an optional bracketed attribute list. -/
def parseEdgeElement (line : List Char) : Option EdgeRec :=
  match splitFirstSub "->".data line with
  | none => none
  | some (pre, post) =>
    let source := (stripSet quoteChars (pstrip pre)).asString
    let remaining := pstrip post
    if remaining.contains '[' then
      let aStart := (remaining.findIdx? (· = '[')).getD 0
      let target := (stripSet quoteChars (pstrip (remaining.take aStart))).asString
      match lastIdxOf ']' remaining with
      | some aEnd =>
        some { source := source, target := target
               attrs := parseAttributes ((remaining.take (aEnd + 1)).drop aStart) }
      | none => some { source := source, target := target, attrs := [] }
    else
      some { source := source, target := (stripSet quoteChars remaining).asString, attrs := [] }

/-! ## Graph decoder: node classification and edge application -/

/-- A classified graph node (the dict `get_dep_graph` builds per node:
`kind`, `content`, the two status axes, the two dependency lists, plus any
attributes it did not consume). -/
structure NodeRec where
  kind : String
  content : String
  typeStatus : String
  termStatus : String
  typeDeps : List String
  termDeps : List String
  extra : List (String × String)
deriving DecidableEq

/-- The fixed `color → type_status` table. -/
def colorTable : List (String × String) :=
  [("green", "stated"), ("blue", "can-state"),
   ("#FFAA33", "not-ready"), ("darkgreen", "mathlib")]

/-- The fixed `fillcolor → term_status` table. -/
def fillcolorTable : List (String × String) :=
  [("#9CEC8B", "proved"), ("#B0ECA3", "defined"),
   ("#A3D6FF", "can-prove"), ("#1CAC78", "fully-proved")]

/-- `table.get(value, 'unrecognized')`. -/
def statusOf (table : List (String × String)) (c : String) : String :=
  ((table.find? fun p => p.1 = c).map (·.2)).getD "unrecognized"

/-- The attribute keys `get_dep_graph` pops from a node's attribute dict. -/
def consumedKeys : List String := ["shape", "color", "fillcolor", "label", "style"]

/-- The node-classification block of `get_dep_graph`, applied to one parsed
node statement: `shape` decides the kind (anything else fatal), `color` and
`fillcolor` map through the two tables (absent → `unknown`, unmapped →
`unrecognized`), the `label` must equal the id, and a `style`, when present,
must be `filled`. -/
def processNodeCore (nodeId : String) (shape color fillcolor label style : Option String)
    (residual : List (String × String)) : Except String NodeRec :=
  match shape with
  | none => .error "Node missing shape attribute"
  | some sh =>
    if sh ≠ "ellipse" ∧ sh ≠ "box" then .error ("Unknown shape: " ++ sh)
    else
      let kind := if sh = "ellipse" then "theorem" else "definition"
      let typeStatus :=
        match color with
        | none => "unknown"
        | some c => statusOf colorTable c
      let termStatus :=
        match fillcolor with
        | none => "unknown"
        | some c => statusOf fillcolorTable c
      match label with
      | none => .error "No label found in node attributes"
      | some lbl =>
        if lbl ≠ nodeId then
          .error ("Node label mismatch: " ++ lbl ++ " != " ++ nodeId)
        else
          match style with
          | some st =>
            if st ≠ "filled" then .error ("Unknown style: " ++ st)
            else .ok { kind := kind, content := "", typeStatus := typeStatus
                       termStatus := termStatus, typeDeps := [], termDeps := []
                       extra := residual }
          | none =>
            .ok { kind := kind, content := "", typeStatus := typeStatus
                  termStatus := termStatus, typeDeps := [], termDeps := []
                  extra := residual }

/-- The node-classification block, applied to one parsed node statement's
attribute dict (the block reads the dict only through the five keyed
lookups, and keeps the unconsumed attributes). -/
def processNode (nodeId : String) (attrs : List (String × String)) :
    Except String NodeRec :=
  processNodeCore nodeId (dictLookup attrs "shape") (dictLookup attrs "color")
    (dictLookup attrs "fillcolor") (dictLookup attrs "label") (dictLookup attrs "style")
    (attrs.filter fun p => ¬ consumedKeys.contains p.1)

/-- Is the edge a type-level dependency (`'style' in attributes and
attributes['style'] == 'dashed'`)? -/
def edgeIsDashed (e : EdgeRec) : Bool :=
  dictLookup e.attrs "style" = some "dashed"

/-- Append one edge's target to the dependency list of its source node. -/
def addDep (nodes : List (String × NodeRec)) (e : EdgeRec) : List (String × NodeRec) :=
  nodes.map fun p =>
    if p.1 = e.source then
      (p.1,
        if edgeIsDashed e then { p.2 with typeDeps := p.2.typeDeps ++ [e.target] }
        else { p.2 with termDeps := p.2.termDeps ++ [e.target] })
    else p

/-- The edge loop of `get_dep_graph`: an edge whose source or target is not
among the parsed nodes is fatal; a `style=dashed` edge goes to the source's
`type-dependencies`, every other edge to its `term-dependencies`. -/
def applyEdges (nodes : List (String × NodeRec)) :
    List EdgeRec → Except String (List (String × NodeRec))
  | [] => .ok nodes
  | e :: rest =>
    if containsKey nodes e.source ∧ containsKey nodes e.target then
      applyEdges (addDep nodes e) rest
    else .error ("Source or target node not found: " ++ e.source ++ " or " ++ e.target)

/-- The `node_info` merge of `get_dep_graph`: a content id without a parsed
node is fatal; otherwise the node's `content` is set. -/
def mergeContent (nodes : List (String × NodeRec)) :
    List (String × String) → Except String (List (String × NodeRec))
  | [] => .ok nodes
  | (id, content) :: rest =>
    if containsKey nodes id then
      mergeContent
        (nodes.map fun p => if p.1 = id then (p.1, { p.2 with content := content }) else p)
        rest
    else .error ("Node ID '" ++ id ++ "' from node_info not found in parsed nodes")

/-- The statement loop of `get_dep_graph`: strip each `;`-separated element,
skip blanks and the reserved `graph [` / `node [` / `edge [` defaults, parse
node statements (`[`/`]` present, no `->`) through `processNode`, and store
edge statements (containing `->`) keyed by `source->target`. -/
def buildGraph :
    List (List Char) → List (String × NodeRec) → List (String × EdgeRec) →
    Except String (List (String × NodeRec) × List (String × EdgeRec))
  | [], nodes, edges => .ok (nodes, edges)
  | el :: rest, nodes, edges =>
    let el := pstrip el
    if el = [] then buildGraph rest nodes edges
    else if "graph [".data.isPrefixOf el ∨ "node [".data.isPrefixOf el ∨
            "edge [".data.isPrefixOf el then
      buildGraph rest nodes edges
    else if el.contains '[' ∧ el.contains ']' ∧ ¬ containsSub "->".data el then
      match parseNodeElement el with
      | none => buildGraph rest nodes edges
      | some (id, attrs) =>
        match processNode id attrs with
        | .error e => .error e
        | .ok rec => buildGraph rest (dictInsert nodes id rec) edges
    else if containsSub "->".data el then
      match parseEdgeElement el with
      | none => buildGraph rest nodes edges
      | some e => buildGraph rest nodes (dictInsert edges (e.source ++ "->" ++ e.target) e)
    else buildGraph rest nodes edges

/-! ## Graph decoder: `get_dep_graph` -/

/-- The expected payload preamble `strict digraph "" {`. -/
def digraphPreamble : List Char := "strict digraph \"\" \x7b".data

deriving instance DecidableEq for Except

/-- What `get_dep_graph` produces: either the node mapping or the fatal
`ValueError`, plus the diagnostics it prints on the three soft early
exits. -/
structure DecodeOut where
  result : Except String (List (String × NodeRec))
  logs : List String
deriving DecidableEq

/-- The diagnostic printed when no payload can be extracted. -/
def noGraphMsg : String := "Could not extract renderDot content from DOM"

/-- The diagnostic printed when the payload does not start with the
preamble. -/
def badPreambleMsg : String := "Content doesn't start with expected pattern"

/-- The diagnostic printed when the payload has no closing brace. -/
def noBraceMsg : String := "Could not find closing brace"

/-- `get_dep_graph(dom, node_info)`, over the script texts of the document:
extract the payload (a missing or empty payload, a bad preamble, or a
missing closing brace each log a diagnostic and yield an empty mapping),
split the body on `;`, classify statements, merge `node_info` content, and
apply the edges. -/
def getDepGraph (scripts : List (List Char)) (nodeInfo : List (String × String)) :
    DecodeOut :=
  match getDepGraphString scripts with
  | none => { result := .ok [], logs := [noGraphMsg] }
  | some s =>
    if s = [] then { result := .ok [], logs := [noGraphMsg] }
    else if ¬ digraphPreamble.isPrefixOf s then
      { result := .ok [], logs := [badPreambleMsg] }
    else
      match lastIdxOf '\x7d' s with
      | none => { result := .ok [], logs := [noBraceMsg] }
      | some endPos =>
        let content := (s.take endPos).drop digraphPreamble.length
        match buildGraph (splitOn ';' content) [] [] with
        | .error e => { result := .error e, logs := [] }
        | .ok (nodes, edges) =>
          match mergeContent nodes nodeInfo with
          | .error e => { result := .error e, logs := [] }
          | .ok nodes2 =>
            match applyEdges nodes2 (edges.map (·.2)) with
            | .error e => { result := .error e, logs := [] }
            | .ok finalNodes => { result := .ok finalNodes, logs := [] }

/-! # Theorems -/

/-! ## C8: the key escaping round-trips -/

theorem hexVal_hexDigitCode {n : Nat} (h : n < 16) :
    hexVal (hexDigitCode n) = some n := by
  interval_cases n <;> decide

theorem isAlwaysSafe_ne_percent {b : Nat} (h : isAlwaysSafe b = true) : b ≠ 37 := by
  intro hb
  subst hb
  simp [isAlwaysSafe] at h

theorem encode_name_cons (b : Nat) (bs : List Nat) :
    encode_name (b :: bs) = encodeByte b ++ encode_name bs := by
  simp [encode_name]

theorem decode_name_cons (c : Nat) (rest : List Nat) :
    decode_name (c :: rest) =
      if c = 37 then
        match rest with
        | c1 :: c2 :: rest2 =>
          match hexVal c1, hexVal c2 with
          | some h, some l => (16 * h + l) :: decode_name rest2
          | _, _ => 37 :: decode_name (c1 :: c2 :: rest2)
        | [c1] => 37 :: decode_name [c1]
        | [] => [37]
      else c :: decode_name rest := by
  rw [decode_name.eq_def]

theorem decode_name_encode_name (bs : List Nat) (h : ∀ b ∈ bs, b < 256) :
    decode_name (encode_name bs) = bs := by
  induction bs with
  | nil => rfl
  | cons b rest ih =>
    have hb : b < 256 := h b (List.mem_cons_self b rest)
    have hrest := ih fun x hx => h x (List.mem_cons_of_mem b hx)
    rw [encode_name_cons]
    by_cases hs : isAlwaysSafe b
    · rw [show encodeByte b = [b] from by simp [encodeByte, hs]]
      rw [List.cons_append, List.nil_append]
      rw [decode_name_cons, if_neg (isAlwaysSafe_ne_percent hs), hrest]
    · rw [show encodeByte b = [37, hexDigitCode (b / 16), hexDigitCode (b % 16)] from by
        simp [encodeByte, hs]]
      have hdiv : b / 16 < 16 := by omega
      have hmod : b % 16 < 16 := by omega
      simp only [List.cons_append, List.nil_append]
      rw [decode_name_cons, if_pos rfl]
      simp only [hexVal_hexDigitCode hdiv, hexVal_hexDigitCode hmod, hrest]
      congr 1
      exact Nat.div_add_mod b 16

/-- C8: for every identifier (given as its byte string, each byte `< 256`),
the ledger's key escaping round-trips — `decode_name (encode_name x) = x` —
and `encode_name` is injective, so distinct identifiers never share a
storage key. -/
theorem cert_key_escaping_lossless (bs bs2 : List Nat)
    (h : ∀ b ∈ bs, b < 256) (h2 : ∀ b ∈ bs2, b < 256) :
    decode_name (encode_name bs) = bs ∧
    (encode_name bs = encode_name bs2 → bs = bs2) := by
  refine ⟨decode_name_encode_name bs h, fun he => ?_⟩
  rw [← decode_name_encode_name bs h, ← decode_name_encode_name bs2 h2, he]

/-- The byte string of the identifier `ns:crate/1.0/mod#func()`. -/
def sampleIdBytes : List Nat := "ns:crate/1.0/mod#func()".data.map Char.toNat

/-- C8 witness: the identifier `ns:crate/1.0/mod#func()` is returned
unchanged by encode-then-decode. -/
theorem cert_key_escaping_lossless_witness :
    decode_name (encode_name sampleIdBytes) = sampleIdBytes :=
  (cert_key_escaping_lossless sampleIdBytes sampleIdBytes
    (by decide) (by decide)).1

/-! ## C1 and C7: the certificate ledger sync -/

theorem syncPlan_toCreate {α : Type} [LinearOrder α] (V F S E : Finset α) :
    (syncPlan V F S E).toCreate = (V ∩ S) \ E := rfl

theorem syncPlan_toDelete {α : Type} [LinearOrder α] (V F S E : Finset α) :
    (syncPlan V F S E).toDelete = (F ∩ S) ∩ E := rfl

theorem syncPlan_certsAfter {α : Type} [LinearOrder α] (V F S E : Finset α) :
    (syncPlan V F S E).certsAfter = (E ∪ ((V ∩ S) \ E)) \ ((F ∩ S) ∩ E) := rfl

theorem syncPlan_created_length {α : Type} [LinearOrder α] (V F S E : Finset α) :
    (syncPlan V F S E).created.length = (syncPlan V F S E).toCreate.card :=
  Finset.length_sort _

theorem syncPlan_deleted_length {α : Type} [LinearOrder α] (V F S E : Finset α) :
    (syncPlan V F S E).deleted.length = (syncPlan V F S E).toDelete.card := by
  have h : ∀ a ∈ ((F ∩ S) ∩ E).sort (· ≤ ·), a ∈ E ∪ ((V ∩ S) \ E) := by
    intro a ha
    rw [Finset.mem_sort] at ha
    exact Finset.mem_union.2 (Or.inl (Finset.mem_of_mem_inter_right ha))
  show ((((F ∩ S) ∩ E).sort (· ≤ ·)).filter (· ∈ E ∪ ((V ∩ S) \ E))).length = _
  rw [List.filter_eq_self.2 fun a ha => decide_eq_true (h a ha)]
  exact Finset.length_sort _

theorem syncPlan_finalCount {α : Type} [LinearOrder α] (V F S E : Finset α) :
    (syncPlan V F S E).finalCount =
      E.card + (syncPlan V F S E).toCreate.card - (syncPlan V F S E).toDelete.card := by
  show E.card + (syncPlan V F S E).created.length - (syncPlan V F S E).deleted.length = _
  rw [syncPlan_created_length, syncPlan_deleted_length]

/-- C1 counterexample: in the run with `verified = ∅`, `failed = ∅`,
`scope = {1}` and `existing = {1}`, the code deletes nothing, whereas the
claimed formula `(scope − qualifying) ∩ existing` demands that `1` be
deleted. -/
theorem sync_delete_formula_counterexample :
    (syncPlan (∅ : Finset ℕ) ∅ {1} {1}).toDelete = ∅ ∧
    ((({1} : Finset ℕ) \ ∅) ∩ {1} = {1}) ∧
    (syncPlan (∅ : Finset ℕ) ∅ {1} {1}).toDelete ≠ (({1} : Finset ℕ) \ ∅) ∩ {1} := by
  refine ⟨?_, by decide, ?_⟩ <;> rw [syncPlan_toDelete] <;> decide

/-- C1 (amended): the sync is driven by the separately supplied verified and
failed sets: `to_create = (qualifying ∩ scope) − existing` as claimed, but
`to_delete = (failed ∩ scope) ∩ existing` — ids of `scope − qualifying`
that the failed set does not list are left alone.  Ids outside `scope` are
never created or deleted, and the reported total is
`|existing| + |to_create| − |to_delete|`. -/
theorem cmd_verify_sync_spec {α : Type} [LinearOrder α] (V F S E : Finset α) :
    (syncPlan V F S E).toCreate = (V ∩ S) \ E ∧
    (syncPlan V F S E).toDelete = (F ∩ S) ∩ E ∧
    (∀ x, x ∉ S → x ∉ (syncPlan V F S E).toCreate ∧ x ∉ (syncPlan V F S E).toDelete) ∧
    (syncPlan V F S E).finalCount =
      E.card + (syncPlan V F S E).toCreate.card - (syncPlan V F S E).toDelete.card := by
  refine ⟨rfl, rfl, ?_, syncPlan_finalCount V F S E⟩
  intro x hx
  rw [syncPlan_toCreate, syncPlan_toDelete]
  constructor
  · intro hmem
    rw [Finset.mem_sdiff, Finset.mem_inter] at hmem
    exact hx hmem.1.2
  · intro hmem
    rw [Finset.mem_inter, Finset.mem_inter] at hmem
    exact hx hmem.1.2

/-- C1 witness: a concrete run of the amended statement — with
`verified = {1, 2}`, `failed = {3}`, `scope = {1, 2, 3}`, `existing = {3}`,
the id `9 ∉ scope` is neither created nor deleted. -/
theorem cmd_verify_sync_spec_witness :
    (9 : ℕ) ∉ ({1, 2, 3} : Finset ℕ) ∧
    9 ∉ (syncPlan ({1, 2} : Finset ℕ) {3} {1, 2, 3} {3}).toCreate ∧
    9 ∉ (syncPlan ({1, 2} : Finset ℕ) {3} {1, 2, 3} {3}).toDelete := by
  have h := (cmd_verify_sync_spec ({1, 2} : Finset ℕ) {3} {1, 2, 3} {3}).2.2.1 9 (by decide)
  exact ⟨by decide, h.1, h.2⟩

/-- C7 counterexample: with `verified = failed = scope = {1}` (as the
dalek-lite verification document can list one function as both verified and
failed) and no existing certs, the first sync creates the cert for `1` and
the second sync — same inputs — deletes it: the second call is not a
no-op. -/
theorem sync_idempotence_counterexample :
    (syncPlan ({1} : Finset ℕ) {1} {1} ∅).certsAfter = {1} ∧
    (syncPlan ({1} : Finset ℕ) {1} {1}
      ((syncPlan ({1} : Finset ℕ) {1} {1} ∅).certsAfter)).toDelete ≠ ∅ := by
  rw [syncPlan_certsAfter, syncPlan_toDelete]
  refine ⟨by decide, by decide⟩

theorem toCreate_second_empty {α : Type} [LinearOrder α] (V F S E : Finset α)
    (hdisj : Disjoint V F) :
    (syncPlan V F S (syncPlan V F S E).certsAfter).toCreate = ∅ := by
  rw [syncPlan_toCreate, syncPlan_certsAfter]
  rw [Finset.sdiff_eq_empty_iff_subset]
  intro x hx
  have hxV : x ∈ V := (Finset.mem_inter.1 hx).1
  have hxF : x ∉ F := Finset.disjoint_left.1 hdisj hxV
  rw [Finset.mem_sdiff]
  constructor
  · by_cases hE : x ∈ E
    · exact Finset.mem_union.2 (Or.inl hE)
    · exact Finset.mem_union.2 (Or.inr (Finset.mem_sdiff.2 ⟨hx, hE⟩))
  · intro hdel
    exact hxF (Finset.mem_inter.1 (Finset.mem_inter.1 hdel).1).1

theorem toDelete_second_empty {α : Type} [LinearOrder α] (V F S E : Finset α)
    (hdisj : Disjoint V F) :
    (syncPlan V F S (syncPlan V F S E).certsAfter).toDelete = ∅ := by
  rw [syncPlan_toDelete, syncPlan_certsAfter]
  rw [Finset.eq_empty_iff_forall_not_mem]
  intro x hmem
  rw [Finset.mem_inter] at hmem
  obtain ⟨hFS, hE2⟩ := hmem
  rw [Finset.mem_sdiff] at hE2
  obtain ⟨hU, hnd⟩ := hE2
  have hxF : x ∈ F := (Finset.mem_inter.1 hFS).1
  have hxnV : x ∉ V := fun hv => Finset.disjoint_left.1 hdisj hv hxF
  rcases Finset.mem_union.1 hU with hE | hVS
  · exact hnd (Finset.mem_inter.2 ⟨hFS, hE⟩)
  · exact hxnV (Finset.mem_inter.1 (Finset.mem_sdiff.1 hVS).1).1

theorem certsAfter_second {α : Type} [LinearOrder α] (V F S E : Finset α)
    (hdisj : Disjoint V F) :
    (syncPlan V F S (syncPlan V F S E).certsAfter).certsAfter =
      (syncPlan V F S E).certsAfter := by
  have h1 := toCreate_second_empty V F S E hdisj
  have h2 := toDelete_second_empty V F S E hdisj
  rw [syncPlan_toCreate] at h1
  rw [syncPlan_toDelete] at h2
  rw [syncPlan_certsAfter, h1, h2]
  simp

theorem finalCount_second {α : Type} [LinearOrder α] (V F S E : Finset α)
    (hdisj : Disjoint V F) :
    (syncPlan V F S (syncPlan V F S E).certsAfter).finalCount =
      (syncPlan V F S E).finalCount := by
  have h1 := toCreate_second_empty V F S E hdisj
  have h2 := toDelete_second_empty V F S E hdisj
  rw [syncPlan_finalCount, h1, h2, Finset.card_empty]
  rw [syncPlan_finalCount, syncPlan_toCreate, syncPlan_toDelete, syncPlan_certsAfter]
  have hdisjE : Disjoint E ((V ∩ S) \ E) := Finset.disjoint_sdiff
  have hsub : (F ∩ S) ∩ E ⊆ E ∪ ((V ∩ S) \ E) := fun x hx =>
    Finset.mem_union.2 (Or.inl (Finset.mem_of_mem_inter_right hx))
  rw [Finset.card_sdiff hsub, Finset.card_union_of_disjoint hdisjE]
  omega

/-- C7 (amended): provided the verified and failed input sets are disjoint
(true of the blueprint extractor's output, but not checked for the
dalek-lite verification document), running the cert sync a second time with
unchanged inputs is a no-op: the second call's `to_create` and `to_delete`
are empty and the cert store and the reported total are unchanged. -/
theorem sync_idempotent_of_disjoint {α : Type} [LinearOrder α] (V F S E : Finset α)
    (hdisj : Disjoint V F) :
    (syncPlan V F S (syncPlan V F S E).certsAfter).toCreate = ∅ ∧
    (syncPlan V F S (syncPlan V F S E).certsAfter).toDelete = ∅ ∧
    (syncPlan V F S (syncPlan V F S E).certsAfter).certsAfter =
      (syncPlan V F S E).certsAfter ∧
    (syncPlan V F S (syncPlan V F S E).certsAfter).finalCount =
      (syncPlan V F S E).finalCount :=
  ⟨toCreate_second_empty V F S E hdisj, toDelete_second_empty V F S E hdisj,
   certsAfter_second V F S E hdisj, finalCount_second V F S E hdisj⟩

/-- C7 witness: the spec's own example, `sync({A, B}, scope {A, B, C})`
against an empty store (with `C` the only failed id): the second identical
call creates and deletes nothing. -/
theorem sync_idempotent_of_disjoint_witness :
    Disjoint ({0, 1} : Finset ℕ) {2} ∧
    (syncPlan ({0, 1} : Finset ℕ) {2} {0, 1, 2}
      ((syncPlan ({0, 1} : Finset ℕ) {2} {0, 1, 2} ∅).certsAfter)).toCreate = ∅ ∧
    (syncPlan ({0, 1} : Finset ℕ) {2} {0, 1, 2}
      ((syncPlan ({0, 1} : Finset ℕ) {2} {0, 1, 2} ∅).certsAfter)).toDelete = ∅ :=
  ⟨by decide,
   (sync_idempotent_of_disjoint ({0, 1} : Finset ℕ) {2} {0, 1, 2} ∅ (by decide)).1,
   (sync_idempotent_of_disjoint ({0, 1} : Finset ℕ) {2} {0, 1, 2} ∅ (by decide)).2.1⟩

/-! ## C10: the blueprint verification partition -/

theorem veriName_injective : Function.Injective veriName := by
  intro a b h
  have hd : ("veri:" ++ a).data = ("veri:" ++ b).data := congrArg String.data h
  rw [String.data_append, String.data_append] at hd
  exact String.ext (List.append_cancel_left hd)

theorem keyUnique {β : Type} {l : List (String × β)} (h : (l.map Prod.fst).Nodup)
    {a : String} {b c : β} (h1 : (a, b) ∈ l) (h2 : (a, c) ∈ l) : b = c := by
  induction l with
  | nil => cases h1
  | cons p rest ih =>
    rw [List.map_cons, List.nodup_cons] at h
    rcases List.mem_cons.1 h1 with rfl | hb
    · rcases List.mem_cons.1 h2 with hc | hc
      · cases hc; rfl
      · exact absurd (List.mem_map_of_mem Prod.fst hc) h.1
    · rcases List.mem_cons.1 h2 with rfl | hc
      · exact absurd (List.mem_map_of_mem Prod.fst hb) h.1
      · exact ih h.2 hb hc

theorem mem_blueprint_verified (bp : List (String × Option String)) (x : String) :
    x ∈ (getBlueprintVerificationResults bp).1 ↔
      ∃ id ts, (id, ts) ∈ bp ∧ x = veriName id ∧ ts.getD "" = "fully-proved" := by
  induction bp with
  | nil => simp [getBlueprintVerificationResults]
  | cons p rest ih =>
    obtain ⟨id, ts⟩ := p
    by_cases h : ts.getD "" ∈ BLUEPRINT_VERIFIED_STATUSES
    · have h2 : ts.getD "" = "fully-proved" := by
        simpa [BLUEPRINT_VERIFIED_STATUSES] using h
      simp only [getBlueprintVerificationResults, if_pos h, Finset.mem_insert, ih]
      constructor
      · rintro (rfl | ⟨i, t, hm, rfl, ht⟩)
        · exact ⟨id, ts, List.mem_cons_self _ _, rfl, h2⟩
        · exact ⟨i, t, List.mem_cons_of_mem _ hm, rfl, ht⟩
      · rintro ⟨i, t, hm, rfl, ht⟩
        rcases List.mem_cons.1 hm with heq | hm2
        · cases heq; exact Or.inl rfl
        · exact Or.inr ⟨i, t, hm2, rfl, ht⟩
    · have h2 : ¬ ts.getD "" = "fully-proved" := by
        simpa [BLUEPRINT_VERIFIED_STATUSES] using h
      simp only [getBlueprintVerificationResults, if_neg h, ih]
      constructor
      · rintro ⟨i, t, hm, rfl, ht⟩
        exact ⟨i, t, List.mem_cons_of_mem _ hm, rfl, ht⟩
      · rintro ⟨i, t, hm, rfl, ht⟩
        rcases List.mem_cons.1 hm with heq | hm2
        · cases heq; exact absurd ht h2
        · exact ⟨i, t, hm2, rfl, ht⟩

theorem mem_blueprint_failed (bp : List (String × Option String)) (x : String) :
    x ∈ (getBlueprintVerificationResults bp).2 ↔
      ∃ id ts, (id, ts) ∈ bp ∧ x = veriName id ∧ ts.getD "" ≠ "fully-proved" := by
  induction bp with
  | nil => simp [getBlueprintVerificationResults]
  | cons p rest ih =>
    obtain ⟨id, ts⟩ := p
    by_cases h : ts.getD "" ∈ BLUEPRINT_VERIFIED_STATUSES
    · have h2 : ts.getD "" = "fully-proved" := by
        simpa [BLUEPRINT_VERIFIED_STATUSES] using h
      simp only [getBlueprintVerificationResults, if_pos h, ih]
      constructor
      · rintro ⟨i, t, hm, rfl, ht⟩
        exact ⟨i, t, List.mem_cons_of_mem _ hm, rfl, ht⟩
      · rintro ⟨i, t, hm, rfl, ht⟩
        rcases List.mem_cons.1 hm with heq | hm2
        · cases heq; exact absurd h2 ht
        · exact ⟨i, t, hm2, rfl, ht⟩
    · have h2 : ¬ ts.getD "" = "fully-proved" := by
        simpa [BLUEPRINT_VERIFIED_STATUSES] using h
      simp only [getBlueprintVerificationResults, if_neg h, Finset.mem_insert, ih]
      constructor
      · rintro (rfl | ⟨i, t, hm, rfl, ht⟩)
        · exact ⟨id, ts, List.mem_cons_self _ _, rfl, h2⟩
        · exact ⟨i, t, List.mem_cons_of_mem _ hm, rfl, ht⟩
      · rintro ⟨i, t, hm, rfl, ht⟩
        rcases List.mem_cons.1 hm with heq | hm2
        · cases heq; exact Or.inl rfl
        · exact Or.inr ⟨i, t, hm2, rfl, ht⟩

/-- C10: for every blueprint node mapping (with its dict's distinct keys),
the extractor partitions the `veri:`-prefixed node names into two disjoint
sets covering every node: a node is verified iff its `term-status` is
exactly `fully-proved`, and failed otherwise (in particular when the status
is absent or unrecognized). -/
theorem blueprint_verification_partition (bp : List (String × Option String))
    (hnd : (bp.map Prod.fst).Nodup) :
    (∀ id ts, (id, ts) ∈ bp →
      ((veriName id ∈ (getBlueprintVerificationResults bp).1 ↔
          ts.getD "" = "fully-proved") ∧
       (veriName id ∈ (getBlueprintVerificationResults bp).2 ↔
          ts.getD "" ≠ "fully-proved"))) ∧
    Disjoint (getBlueprintVerificationResults bp).1 (getBlueprintVerificationResults bp).2 ∧
    (getBlueprintVerificationResults bp).1 ∪ (getBlueprintVerificationResults bp).2 =
      (bp.map fun p => veriName p.1).toFinset := by
  refine ⟨?_, ?_, ?_⟩
  · intro id ts hm
    constructor
    · rw [mem_blueprint_verified]
      constructor
      · rintro ⟨i, t, hm2, heq, ht⟩
        cases veriName_injective heq
        rw [keyUnique hnd hm hm2]
        exact ht
      · intro ht
        exact ⟨id, ts, hm, rfl, ht⟩
    · rw [mem_blueprint_failed]
      constructor
      · rintro ⟨i, t, hm2, heq, ht⟩
        cases veriName_injective heq
        rw [keyUnique hnd hm hm2]
        exact ht
      · intro ht
        exact ⟨id, ts, hm, rfl, ht⟩
  · rw [Finset.disjoint_left]
    intro x hv hf
    rw [mem_blueprint_verified] at hv
    rw [mem_blueprint_failed] at hf
    obtain ⟨i, t, hm, rfl, ht⟩ := hv
    obtain ⟨i2, t2, hm2, heq, ht2⟩ := hf
    cases veriName_injective heq
    rw [keyUnique hnd hm2 hm] at ht2
    exact ht2 ht
  · ext x
    rw [Finset.mem_union, mem_blueprint_verified, mem_blueprint_failed,
      List.mem_toFinset, List.mem_map]
    constructor
    · rintro (⟨i, t, hm, rfl, _⟩ | ⟨i, t, hm, rfl, _⟩) <;> exact ⟨(i, t), hm, rfl⟩
    · rintro ⟨⟨i, t⟩, hm, rfl⟩
      by_cases ht : t.getD "" = "fully-proved"
      · exact Or.inl ⟨i, t, hm, rfl, ht⟩
      · exact Or.inr ⟨i, t, hm, rfl, ht⟩

/-- C10 witness: on the two-node blueprint `n1 : fully-proved`,
`n2 : (no term-status)`, the extractor marks `veri:n1` verified and
`veri:n2` failed. -/
theorem blueprint_verification_partition_witness :
    veriName "n1" ∈
      (getBlueprintVerificationResults
        [("n1", some "fully-proved"), ("n2", (none : Option String))]).1 ∧
    veriName "n2" ∈
      (getBlueprintVerificationResults
        [("n1", some "fully-proved"), ("n2", (none : Option String))]).2 :=
  ⟨((blueprint_verification_partition
      [("n1", some "fully-proved"), ("n2", (none : Option String))] (by decide)).1
      "n1" (some "fully-proved") (by decide)).1.mpr (by decide),
   ((blueprint_verification_partition
      [("n1", some "fully-proved"), ("n2", (none : Option String))] (by decide)).1
      "n2" (none : Option String) (by decide)).2.mpr (by decide)⟩

/-! ## C9: interval-index boundary exactness -/

/-- C9: for every atom inserted into the index with file `f`, line start `s`
and line end `e` (an atom with missing line information contributes nothing,
without error), the stored half-open interval is `[s, e + 1)`: `lookup(f, s)`
contains the atom's interval while `lookup(f, s − 1)` and `lookup(f, e + 1)`
do not. -/
theorem interval_index_boundary (atoms : List (String × ScipAtom))
    (n : String) (a : ScipAtom) (f : String) (s e : Int)
    (hmem : (n, a) ∈ atoms) (hp : a.codePath = some f) (hf : f ≠ "")
    (hs : a.codeText.linesStart = some s) (he : a.codeText.linesEnd = some e)
    (hse : s ≤ e) :
    (s, e + 1, n) ∈ scipLookup atoms f s ∧
    (s, e + 1, n) ∉ scipLookup atoms f (s - 1) ∧
    (s, e + 1, n) ∉ scipLookup atoms f (e + 1) ∧
    (∀ (m : String) (b : ScipAtom),
      b.codePath = none ∨ b.codeText.linesStart = none ∨ b.codeText.linesEnd = none →
      ∀ (g : String), scipIntervals ((m, b) :: atoms) g = scipIntervals atoms g) := by
  refine ⟨?_, ?_, ?_, ?_⟩
  · rw [scipLookup, List.mem_filter]
    constructor
    · rw [scipIntervals, List.mem_filterMap]
      refine ⟨(n, a), hmem, ?_⟩
      rw [hp, hs, he]
      simp [strTruthy, hf]
    · simp only [decide_eq_true_eq]
      exact ⟨le_refl s, by omega⟩
  · intro hcontra
    rw [scipLookup, List.mem_filter] at hcontra
    have := hcontra.2
    simp only [decide_eq_true_eq] at this
    omega
  · intro hcontra
    rw [scipLookup, List.mem_filter] at hcontra
    have := hcontra.2
    simp only [decide_eq_true_eq] at this
    omega
  · intro m b hb g
    rw [scipIntervals, scipIntervals, List.filterMap_cons]
    rcases hb with hb | hb | hb <;> rw [hb] <;>
      cases hb2 : b.codePath <;> cases hb3 : b.codeText.linesStart <;>
        cases hb4 : b.codeText.linesEnd <;> simp_all

/-- C9 witness: the atom `scip:c/f1` at `src/a.rs` lines 10–20 is found by
`lookup(src/a.rs, 10)` but not by `lookup` at lines 9 or 21. -/
theorem interval_index_boundary_witness :
    ((10 : Int), (21 : Int), "scip:c/f1") ∈
      scipLookup [("scip:c/f1", ⟨some "src/a.rs", ⟨some 10, some 20⟩⟩)] "src/a.rs" 10 ∧
    ((10 : Int), (21 : Int), "scip:c/f1") ∉
      scipLookup [("scip:c/f1", ⟨some "src/a.rs", ⟨some 10, some 20⟩⟩)] "src/a.rs" 9 ∧
    ((10 : Int), (21 : Int), "scip:c/f1") ∉
      scipLookup [("scip:c/f1", ⟨some "src/a.rs", ⟨some 10, some 20⟩⟩)] "src/a.rs" 21 := by
  have h := interval_index_boundary
    [("scip:c/f1", ⟨some "src/a.rs", ⟨some 10, some 20⟩⟩)]
    "scip:c/f1" ⟨some "src/a.rs", ⟨some 10, some 20⟩⟩ "src/a.rs" 10 20
    (by decide) rfl (by decide) rfl rfl (by norm_num)
  refine ⟨h.1, ?_, h.2.2.1⟩
  have h2 := h.2.1
  norm_num at h2 ⊢
  exact h2

/-! ## C3: position-based resolution -/

theorem updateEntry_not_usable (entry : Entry) (idx scipAtoms : List (String × ScipAtom))
    (hid : usableAtomId entry scipAtoms = false) :
    ∃ sw, updateEntryFromAtoms entry idx scipAtoms = positionResolve entry idx sw := by
  unfold usableAtomId at hid
  unfold updateEntryFromAtoms
  cases hsn : entry.scipName with
  | none => exact ⟨[], rfl⟩
  | some s =>
    rw [hsn] at hid
    dsimp only
    by_cases hse : s = ""
    · subst hse
      simp only [if_pos rfl]
      exact ⟨[], rfl⟩
    · cases hlk : lookupAtom scipAtoms s with
      | none =>
        simp only [if_neg hse, hlk]
        exact ⟨[staleNameMsg s], rfl⟩
      | some atom =>
        dsimp only at hid
        rw [hlk] at hid
        simp [hse] at hid

theorem positionResolve_spec (entry : Entry) (idx : List (String × ScipAtom))
    (sw : List String) (f : String) (l : Int)
    (hpath : entry.codePath = some f) (hf : f ≠ "") (hline : entry.codeLine = some l) :
    (indexHasFile idx f = false →
      positionResolve entry idx sw =
        { updated := none, error := some (fileNotInIndexMsg f), warnings := sw }) ∧
    (indexHasFile idx f = true →
      (scipLookup idx f l).filter (fun iv => iv.1 = l) = [] →
      positionResolve entry idx sw =
        { updated := none, error := some (noExactMatchMsg l f), warnings := sw }) ∧
    (∀ iv rest, (scipLookup idx f l).filter (fun iv => iv.1 = l) = iv :: rest →
      indexHasFile idx f = true →
      positionResolve entry idx sw =
        { updated := some { entry with scipName := some iv.2.2 }, error := none,
          warnings := sw ++ if rest = [] then [] else [multiMatchMsg l f] }) := by
  unfold positionResolve
  rw [hpath, hline]
  dsimp only
  refine ⟨?_, ?_, ?_⟩
  · intro hmiss
    rw [if_neg hf, if_pos (by simp [hmiss])]
  · intro hhas hempty
    rw [if_neg hf, if_neg (by simp [hhas]), hempty]
  · intro iv rest hcons hhas
    rw [if_neg hf, if_neg (by simp [hhas]), hcons]

/-- C3: for every entry resolved by position (no usable atom id) with a
truthy recorded file and a recorded line: a file entirely absent from the
index is a resolution failure reported as an error; only containing
intervals whose start equals the recorded line are exact matches, and zero
exact matches is likewise an error; several exact matches warn
(non-fatally) and the first match in discovery order wins; on a match the
entry's `scip-name` is set to the matched atom's id. -/
theorem reconcile_by_position_spec (entry : Entry)
    (idx scipAtoms : List (String × ScipAtom)) (f : String) (l : Int)
    (hid : usableAtomId entry scipAtoms = false)
    (hpath : entry.codePath = some f) (hf : f ≠ "") (hline : entry.codeLine = some l) :
    (indexHasFile idx f = false →
      (updateEntryFromAtoms entry idx scipAtoms).updated = none ∧
      (updateEntryFromAtoms entry idx scipAtoms).error = some (fileNotInIndexMsg f)) ∧
    (indexHasFile idx f = true →
      (scipLookup idx f l).filter (fun iv => iv.1 = l) = [] →
      (updateEntryFromAtoms entry idx scipAtoms).updated = none ∧
      (updateEntryFromAtoms entry idx scipAtoms).error = some (noExactMatchMsg l f)) ∧
    (∀ iv rest, (scipLookup idx f l).filter (fun iv => iv.1 = l) = iv :: rest →
      indexHasFile idx f = true →
      (updateEntryFromAtoms entry idx scipAtoms).updated =
        some { entry with scipName := some iv.2.2 } ∧
      (updateEntryFromAtoms entry idx scipAtoms).error = none ∧
      (rest ≠ [] →
        multiMatchMsg l f ∈ (updateEntryFromAtoms entry idx scipAtoms).warnings)) := by
  obtain ⟨sw, hsw⟩ := updateEntry_not_usable entry idx scipAtoms hid
  have hspec := positionResolve_spec entry idx sw f l hpath hf hline
  rw [hsw]
  refine ⟨?_, ?_, ?_⟩
  · intro hmiss
    rw [hspec.1 hmiss]
    exact ⟨rfl, rfl⟩
  · intro hhas hempty
    rw [hspec.2.1 hhas hempty]
    exact ⟨rfl, rfl⟩
  · intro iv rest hcons hhas
    rw [hspec.2.2 iv rest hcons hhas]
    refine ⟨rfl, rfl, ?_⟩
    intro hrest
    simp [List.mem_append, hrest]

/-- C3 witness: an entry pointing at `(src/a.rs, 10)` where two atoms both
start at line 10 still resolves (to the first atom in discovery order, with
the ambiguity warning) rather than failing. -/
theorem reconcile_by_position_spec_witness :
    (updateEntryFromAtoms ⟨some "src/a.rs", some 10, none⟩
      [("scip:c/f1", ⟨some "src/a.rs", ⟨some 10, some 20⟩⟩),
       ("scip:c/f2", ⟨some "src/a.rs", ⟨some 10, some 12⟩⟩)]
      [("scip:c/f1", ⟨some "src/a.rs", ⟨some 10, some 20⟩⟩),
       ("scip:c/f2", ⟨some "src/a.rs", ⟨some 10, some 12⟩⟩)]).updated =
      some ⟨some "src/a.rs", some 10, some "scip:c/f1"⟩ ∧
    (updateEntryFromAtoms ⟨some "src/a.rs", some 10, none⟩
      [("scip:c/f1", ⟨some "src/a.rs", ⟨some 10, some 20⟩⟩),
       ("scip:c/f2", ⟨some "src/a.rs", ⟨some 10, some 12⟩⟩)]
      [("scip:c/f1", ⟨some "src/a.rs", ⟨some 10, some 20⟩⟩),
       ("scip:c/f2", ⟨some "src/a.rs", ⟨some 10, some 12⟩⟩)]).error = none := by
  have h := (reconcile_by_position_spec ⟨some "src/a.rs", some 10, none⟩
      [("scip:c/f1", ⟨some "src/a.rs", ⟨some 10, some 20⟩⟩),
       ("scip:c/f2", ⟨some "src/a.rs", ⟨some 10, some 12⟩⟩)]
      [("scip:c/f1", ⟨some "src/a.rs", ⟨some 10, some 20⟩⟩),
       ("scip:c/f2", ⟨some "src/a.rs", ⟨some 10, some 12⟩⟩)]
      "src/a.rs" 10 (by decide) rfl (by decide) rfl).2.2
      (10, 21, "scip:c/f1") [(10, 13, "scip:c/f2")] (by decide) (by decide)
  exact ⟨h.1, h.2.1⟩

/-! ## C4: atom-id resolution (the atom map as ground truth) -/

theorem updateEntry_usable (entry : Entry) (idx scipAtoms : List (String × ScipAtom))
    (s : String) (atom : ScipAtom) (hsn : entry.scipName = some s) (hs : s ≠ "")
    (hlk : lookupAtom scipAtoms s = some atom) :
    updateEntryFromAtoms entry idx scipAtoms = atomIdResolve entry atom := by
  unfold updateEntryFromAtoms
  rw [hsn]
  dsimp only
  rw [if_neg hs, hlk]

/-- C4: for every entry whose `scip-name` is present in the atom map,
reconciliation overwrites the recorded file and line with the atom map's
values, emits exactly one warning per differing field (the message carries
the stale and the replacement value), leaves `scip-name` unchanged, returns
no error, and never consults the interval index (the result is the same for
any two index arguments). -/
theorem reconcile_by_atom_id_spec (entry : Entry) (scipAtoms : List (String × ScipAtom))
    (s : String) (atom : ScipAtom)
    (hsn : entry.scipName = some s) (hs : s ≠ "")
    (hlk : lookupAtom scipAtoms s = some atom)
    (idx idx2 : List (String × ScipAtom)) :
    updateEntryFromAtoms entry idx scipAtoms = updateEntryFromAtoms entry idx2 scipAtoms ∧
    (updateEntryFromAtoms entry idx scipAtoms).updated =
      some { entry with codePath := atom.codePath, codeLine := atom.codeText.linesStart } ∧
    (updateEntryFromAtoms entry idx scipAtoms).error = none ∧
    (updateEntryFromAtoms entry idx scipAtoms).warnings.length =
      ((if entry.codePath ≠ atom.codePath then 1 else 0) +
       (if entry.codeLine ≠ atom.codeText.linesStart then 1 else 0)) ∧
    (entry.codePath ≠ atom.codePath →
      pathMismatchMsg entry.codePath atom.codePath ∈
        (updateEntryFromAtoms entry idx scipAtoms).warnings) ∧
    (entry.codeLine ≠ atom.codeText.linesStart →
      lineMismatchMsg entry.codeLine atom.codeText.linesStart ∈
        (updateEntryFromAtoms entry idx scipAtoms).warnings) := by
  rw [updateEntry_usable entry idx scipAtoms s atom hsn hs hlk,
    updateEntry_usable entry idx2 scipAtoms s atom hsn hs hlk]
  refine ⟨rfl, rfl, rfl, ?_, ?_, ?_⟩
  · by_cases hp : entry.codePath = atom.codePath <;>
      by_cases hl : entry.codeLine = atom.codeText.linesStart <;>
        simp [atomIdResolve, hp, hl]
  · intro hp
    by_cases hl : entry.codeLine = atom.codeText.linesStart <;>
      simp [atomIdResolve, hp, hl]
  · intro hl
    by_cases hp : entry.codePath = atom.codePath <;>
      simp [atomIdResolve, hp, hl]

/-- C4 witness: an entry carrying `scip:c/f1` with stale file and line is
corrected from the atom map — same result for two different index
arguments — with both mismatch warnings present. -/
theorem reconcile_by_atom_id_spec_witness :
    (updateEntryFromAtoms ⟨some "old.rs", some 3, some "scip:c/f1"⟩
      [] [("scip:c/f1", ⟨some "src/a.rs", ⟨some 10, some 20⟩⟩)]).updated =
      some ⟨some "src/a.rs", some 10, some "scip:c/f1"⟩ ∧
    updateEntryFromAtoms ⟨some "old.rs", some 3, some "scip:c/f1"⟩
      [] [("scip:c/f1", ⟨some "src/a.rs", ⟨some 10, some 20⟩⟩)] =
    updateEntryFromAtoms ⟨some "old.rs", some 3, some "scip:c/f1"⟩
      [("other", ⟨some "x.rs", ⟨some 1, some 2⟩⟩)]
      [("scip:c/f1", ⟨some "src/a.rs", ⟨some 10, some 20⟩⟩)] := by
  have h := reconcile_by_atom_id_spec ⟨some "old.rs", some 3, some "scip:c/f1"⟩
    [("scip:c/f1", ⟨some "src/a.rs", ⟨some 10, some 20⟩⟩)]
    "scip:c/f1" ⟨some "src/a.rs", ⟨some 10, some 20⟩⟩ rfl (by decide) rfl
    [] [("other", ⟨some "x.rs", ⟨some 1, some 2⟩⟩)]
  exact ⟨h.2.1, h.1⟩

/-! ## C6: edge classification and endpoint fatality -/

/-- `nodes[k]` for the node dict. -/
def nodeLookup (nodes : List (String × NodeRec)) (k : String) : Option NodeRec :=
  (nodes.find? fun p => p.1 = k).map (·.2)

theorem containsKey_addDep (nodes : List (String × NodeRec)) (e : EdgeRec) (k : String) :
    containsKey (addDep nodes e) k = containsKey nodes k := by
  induction nodes with
  | nil => rfl
  | cons p rest ih =>
    simp only [addDep, List.map_cons, containsKey, List.any_cons] at *
    rw [ih]
    by_cases hp : p.1 = e.source <;> simp [hp]

theorem nodeLookup_cons (p : String × NodeRec) (rest : List (String × NodeRec))
    (k : String) :
    nodeLookup (p :: rest) k = if p.1 = k then some p.2 else nodeLookup rest k := by
  by_cases h : p.1 = k <;> simp [nodeLookup, List.find?_cons, h]

theorem nodeLookup_addDep (nodes : List (String × NodeRec)) (e : EdgeRec) (k : String) :
    nodeLookup (addDep nodes e) k =
      if k = e.source then
        (nodeLookup nodes k).map fun r =>
          if edgeIsDashed e then { r with typeDeps := r.typeDeps ++ [e.target] }
          else { r with termDeps := r.termDeps ++ [e.target] }
      else nodeLookup nodes k := by
  induction nodes with
  | nil => by_cases hk : k = e.source <;> simp [nodeLookup, addDep, hk]
  | cons p rest ih =>
    rw [show addDep (p :: rest) e =
        (if p.1 = e.source then
          (p.1, if edgeIsDashed e then { p.2 with typeDeps := p.2.typeDeps ++ [e.target] }
                else { p.2 with termDeps := p.2.termDeps ++ [e.target] })
         else p) :: addDep rest e from rfl]
    rw [nodeLookup_cons, nodeLookup_cons]
    have hd1 : ((if p.1 = e.source then
        (p.1, if edgeIsDashed e then { p.2 with typeDeps := p.2.typeDeps ++ [e.target] }
              else { p.2 with termDeps := p.2.termDeps ++ [e.target] })
        else p) : String × NodeRec).1 = p.1 := by
      by_cases hp : p.1 = e.source <;> simp [hp]
    rw [hd1]
    by_cases hk2 : p.1 = k
    · by_cases hp : p.1 = e.source
      · have hke : k = e.source := hk2 ▸ hp
        simp [hp, hke, hk2]
      · have hke : ¬ k = e.source := fun h => hp (hk2.trans h)
        simp [hp, hke, hk2]
    · rw [if_neg hk2, ih]
      by_cases hke : k = e.source
      · have hp : ¬ p.1 = e.source := fun h => hk2 (h.trans hke.symm)
        simp [hke, hp]
      · simp [hke, hk2]

theorem applyEdges_ok_iff (edges : List EdgeRec) (nodes : List (String × NodeRec)) :
    (∃ r, applyEdges nodes edges = .ok r) ↔
      ∀ e ∈ edges, containsKey nodes e.source = true ∧ containsKey nodes e.target = true := by
  induction edges generalizing nodes with
  | nil => simp [applyEdges]
  | cons e rest ih =>
    rw [applyEdges]
    by_cases hc : containsKey nodes e.source = true ∧ containsKey nodes e.target = true
    · rw [if_pos hc, ih (addDep nodes e)]
      constructor
      · intro h e2 he2
        rcases List.mem_cons.1 he2 with rfl | he2
        · exact hc
        · have := h e2 he2
          rwa [containsKey_addDep, containsKey_addDep] at this
      · intro h e2 he2
        rw [containsKey_addDep, containsKey_addDep]
        exact h e2 (List.mem_cons_of_mem _ he2)
    · rw [if_neg hc]
      constructor
      · rintro ⟨r, hr⟩
        cases hr
      · intro h
        exact absurd (h e (List.mem_cons_self _ _)) hc

theorem applyEdges_deps (edges : List EdgeRec) (nodes : List (String × NodeRec))
    (r : List (String × NodeRec)) (hok : applyEdges nodes edges = .ok r)
    (s : String) (rec : NodeRec) (hl : nodeLookup nodes s = some rec) :
    nodeLookup r s = some { rec with
      typeDeps := rec.typeDeps ++
        ((edges.filter fun e2 => e2.source == s && edgeIsDashed e2).map (·.target)),
      termDeps := rec.termDeps ++
        ((edges.filter fun e2 => e2.source == s && !(edgeIsDashed e2)).map (·.target)) } := by
  induction edges generalizing nodes rec with
  | nil =>
    cases hok
    simpa using hl
  | cons e rest ih =>
    rw [applyEdges] at hok
    by_cases hc : containsKey nodes e.source = true ∧ containsKey nodes e.target = true
    · rw [if_pos hc] at hok
      by_cases hs : e.source = s
      · have hl2 : nodeLookup (addDep nodes e) s =
            some (if edgeIsDashed e then { rec with typeDeps := rec.typeDeps ++ [e.target] }
                  else { rec with termDeps := rec.termDeps ++ [e.target] }) := by
          rw [nodeLookup_addDep, if_pos hs.symm, hl]
          by_cases hd : edgeIsDashed e <;> simp [hd]
        have hres := ih (addDep nodes e) hok _ hl2
        rw [hres]
        by_cases hd : edgeIsDashed e <;>
          simp [List.filter_cons, hs, hd, beq_iff_eq, List.append_assoc]
      · have hl2 : nodeLookup (addDep nodes e) s = some rec := by
          rw [nodeLookup_addDep, if_neg (fun h => hs h.symm), hl]
        have hres := ih (addDep nodes e) hok rec hl2
        rw [hres]
        simp [List.filter_cons, hs, beq_iff_eq]
    · rw [if_neg hc] at hok
      cases hok

/-- C6: in the decoded digraph's edge loop, an edge with `style=dashed` is
appended to the `type-dependencies` of its source node and every other edge
to the source's `term-dependencies`; an edge whose source or target is not
among the parsed nodes makes the whole loop return a fatal error (success is
possible only when every endpoint is present). -/
theorem edge_classification_spec (nodes : List (String × NodeRec)) (edges : List EdgeRec) :
    ((∃ e ∈ edges, ¬ (containsKey nodes e.source = true ∧ containsKey nodes e.target = true)) →
      ∃ m, applyEdges nodes edges = .error m) ∧
    (∀ r, applyEdges nodes edges = .ok r →
      (∀ e ∈ edges, containsKey nodes e.source = true ∧ containsKey nodes e.target = true) ∧
      (∀ s rec, nodeLookup nodes s = some rec →
        nodeLookup r s = some { rec with
          typeDeps := rec.typeDeps ++
            ((edges.filter fun e2 => e2.source == s && edgeIsDashed e2).map (·.target)),
          termDeps := rec.termDeps ++
            ((edges.filter fun e2 =>
                e2.source == s && !(edgeIsDashed e2)).map (·.target)) })) := by
  constructor
  · intro hbad
    cases happ : applyEdges nodes edges with
    | error m => exact ⟨m, rfl⟩
    | ok r =>
      have hall := (applyEdges_ok_iff edges nodes).1 ⟨r, happ⟩
      obtain ⟨e, he, hne⟩ := hbad
      exact absurd (hall e he) hne
  · intro r hok
    exact ⟨(applyEdges_ok_iff edges nodes).1 ⟨r, hok⟩,
      fun s rec hl => applyEdges_deps edges nodes r hok s rec hl⟩

/-- C6 witness: on nodes `a`, `b` with a dashed edge `a -> b` and a plain
edge `b -> a`, the loop succeeds and classifies the dashed edge into `a`'s
`type-dependencies` and the plain edge into `b`'s `term-dependencies`;
dropping node `b` makes the loop fail. -/
theorem edge_classification_spec_witness :
    (∃ m, applyEdges [("a", ⟨"theorem", "", "stated", "proved", [], [], []⟩)]
      [⟨"a", "b", [("style", "dashed")]⟩] = .error m) ∧
    (∀ r, applyEdges
        [("a", ⟨"theorem", "", "stated", "proved", [], [], []⟩),
         ("b", ⟨"definition", "", "unknown", "unknown", [], [], []⟩)]
        [⟨"a", "b", [("style", "dashed")]⟩, ⟨"b", "a", []⟩] = .ok r →
      nodeLookup r "a" = some ⟨"theorem", "", "stated", "proved", ["b"], [], []⟩) := by
  constructor
  · exact (edge_classification_spec
      [("a", ⟨"theorem", "", "stated", "proved", [], [], []⟩)]
      [⟨"a", "b", [("style", "dashed")]⟩]).1
      ⟨⟨"a", "b", [("style", "dashed")]⟩, by decide, by decide⟩
  · intro r hok
    have h := ((edge_classification_spec
        [("a", ⟨"theorem", "", "stated", "proved", [], [], []⟩),
         ("b", ⟨"definition", "", "unknown", "unknown", [], [], []⟩)]
        [⟨"a", "b", [("style", "dashed")]⟩, ⟨"b", "a", []⟩]).2 r hok).2
        "a" ⟨"theorem", "", "stated", "proved", [], [], []⟩ (by decide)
    rw [h]
    rfl

/-! ## C5: node classification -/

theorem dictLookup_eq_some_mem {α : Type} (l : List (String × α)) (k : String) (v : α)
    (h : dictLookup l k = some v) : (k, v) ∈ l := by
  unfold dictLookup at h
  cases hf : l.reverse.find? (fun q => q.1 = k) with
  | none => rw [hf] at h; cases h
  | some q =>
    rw [hf] at h
    cases h
    have h0 := List.find?_some hf
    have h1 : q.1 = k := by simpa using h0
    have h2 : q ∈ l := List.mem_reverse.1 (List.mem_of_find?_eq_some hf)
    rw [← h1]
    exact h2

theorem dictLookup_eq_none_iff {α : Type} (l : List (String × α)) (k : String) :
    dictLookup l k = none ↔ k ∉ l.map Prod.fst := by
  unfold dictLookup
  rw [Option.map_eq_none', List.find?_eq_none]
  constructor
  · intro h hk
    obtain ⟨q, hq, hqk⟩ := List.mem_map.1 hk
    exact h q (List.mem_reverse.2 hq) (decide_eq_true hqk)
  · intro h q hq hqk
    exact h (List.mem_map.2 ⟨q, List.mem_reverse.1 hq, of_decide_eq_true hqk⟩)

theorem dictLookup_some_of_mem {α : Type} {l : List (String × α)}
    (hnd : (l.map Prod.fst).Nodup) {k : String} {v : α} (hm : (k, v) ∈ l) :
    dictLookup l k = some v := by
  cases h : dictLookup l k with
  | none =>
    rw [dictLookup_eq_none_iff] at h
    exact absurd (List.mem_map.2 ⟨(k, v), hm, rfl⟩) h
  | some w =>
    have hw := dictLookup_eq_some_mem l k w h
    rw [keyUnique hnd hm hw]

theorem dictLookup_perm {α : Type} {l l2 : List (String × α)} (hperm : l.Perm l2)
    (hnd : (l.map Prod.fst).Nodup) (k : String) :
    dictLookup l k = dictLookup l2 k := by
  have hnd2 : (l2.map Prod.fst).Nodup := ((hperm.map Prod.fst).nodup_iff).1 hnd
  cases h : dictLookup l k with
  | some v =>
    exact (dictLookup_some_of_mem hnd2 (hperm.mem_iff.1 (dictLookup_eq_some_mem l k v h))).symm
  | none =>
    rw [dictLookup_eq_none_iff] at h
    rw [(dictLookup_eq_none_iff l2 k).2 fun hk => h (((hperm.map Prod.fst).mem_iff).2 hk)]

/-- The classification triple of a decode outcome (kind and the two status
axes); the residual attribute dict is not part of the classification. -/
def classifyResult : Except String NodeRec → Except String (String × String × String)
  | .error m => .error m
  | .ok r => .ok (r.kind, r.typeStatus, r.termStatus)

theorem processNodeCore_residual (n : String) (sh c fc lb st : Option String)
    (e1 e2 : List (String × String)) :
    classifyResult (processNodeCore n sh c fc lb st e1) =
      classifyResult (processNodeCore n sh c fc lb st e2) := by
  cases sh <;> cases lb <;> cases st <;>
    unfold processNodeCore <;> dsimp only <;> split_ifs <;> rfl

theorem statusOf_unrecognized (table : List (String × String)) (c : String)
    (h : ∀ p ∈ table, p.1 ≠ c) : statusOf table c = "unrecognized" := by
  unfold statusOf
  rw [List.find?_eq_none.2 fun p hp => by simpa using h p hp]
  rfl

theorem processNode_ok_form (id : String) (attrs : List (String × String)) (sh : String)
    (hsh : dictLookup attrs "shape" = some sh) (hv : sh = "ellipse" ∨ sh = "box")
    (hl : dictLookup attrs "label" = some id)
    (hst : dictLookup attrs "style" = none ∨ dictLookup attrs "style" = some "filled") :
    processNode id attrs = .ok
      { kind := if sh = "ellipse" then "theorem" else "definition"
        content := ""
        typeStatus := match dictLookup attrs "color" with
          | none => "unknown"
          | some c => statusOf colorTable c
        termStatus := match dictLookup attrs "fillcolor" with
          | none => "unknown"
          | some c => statusOf fillcolorTable c
        typeDeps := []
        termDeps := []
        extra := attrs.filter fun p => ¬ consumedKeys.contains p.1 } := by
  unfold processNode processNodeCore
  rw [hsh, hl]
  dsimp only
  have h1 : ¬ (sh ≠ "ellipse" ∧ sh ≠ "box") := by
    rcases hv with rfl | rfl <;> simp
  rw [if_neg h1, if_neg (show ¬ id ≠ id from by simp)]
  rcases hst with hst | hst <;> rw [hst]
  simp

theorem processNode_shape_missing (id : String) (attrs : List (String × String))
    (h : dictLookup attrs "shape" = none) :
    processNode id attrs = .error "Node missing shape attribute" := by
  unfold processNode processNodeCore
  rw [h]

theorem processNode_shape_unknown (id : String) (attrs : List (String × String)) (v : String)
    (h : dictLookup attrs "shape" = some v) (h1 : v ≠ "ellipse") (h2 : v ≠ "box") :
    processNode id attrs = .error ("Unknown shape: " ++ v) := by
  unfold processNode processNodeCore
  rw [h]
  dsimp only
  rw [if_pos ⟨h1, h2⟩]

theorem processNode_ok_inv (id : String) (attrs : List (String × String)) (r : NodeRec)
    (hok : processNode id attrs = .ok r) :
    ∃ sh, dictLookup attrs "shape" = some sh ∧ (sh = "ellipse" ∨ sh = "box") ∧
      dictLookup attrs "label" = some id ∧
      (dictLookup attrs "style" = none ∨ dictLookup attrs "style" = some "filled") ∧
      r.typeStatus = (match dictLookup attrs "color" with
        | none => "unknown"
        | some c => statusOf colorTable c) ∧
      r.termStatus = (match dictLookup attrs "fillcolor" with
        | none => "unknown"
        | some c => statusOf fillcolorTable c) ∧
      r.kind = (if sh = "ellipse" then "theorem" else "definition") := by
  unfold processNode processNodeCore at hok
  cases hsh : dictLookup attrs "shape" with
  | none => rw [hsh] at hok; cases hok
  | some sh =>
    rw [hsh] at hok
    dsimp only at hok
    by_cases h1 : sh ≠ "ellipse" ∧ sh ≠ "box"
    · rw [if_pos h1] at hok; cases hok
    · rw [if_neg h1] at hok
      have hv : sh = "ellipse" ∨ sh = "box" := by tauto
      cases hlb : dictLookup attrs "label" with
      | none => rw [hlb] at hok; cases hok
      | some lbl =>
        rw [hlb] at hok
        dsimp only at hok
        by_cases h2 : lbl ≠ id
        · rw [if_pos h2] at hok; cases hok
        · rw [if_neg h2] at hok
          have hlbl : lbl = id := by tauto
          subst hlbl
          cases hst : dictLookup attrs "style" with
          | none =>
            rw [hst] at hok
            dsimp only at hok
            cases hok
            exact ⟨sh, rfl, hv, rfl, Or.inl rfl, rfl, rfl, rfl⟩
          | some stv =>
            rw [hst] at hok
            dsimp only at hok
            by_cases h3 : stv ≠ "filled"
            · rw [if_pos h3] at hok; cases hok
            · rw [if_neg h3] at hok
              have hstv : stv = "filled" := by tauto
              subst hstv
              cases hok
              exact ⟨sh, rfl, hv, rfl, Or.inr rfl, rfl, rfl, rfl⟩

/-- C5: node classification is attribute-driven and order-independent:
`shape=ellipse` yields kind `theorem` and `shape=box` kind `definition`
(any other or missing shape is fatal); `color` maps through the fixed
4-entry table to `type-status` with absent → `unknown` and unmapped →
`unrecognized`; `fillcolor` maps through its own fixed 4-entry table to
`term-status` with the same rules; and permuting a duplicate-free attribute
list never changes the classification outcome. -/
theorem node_classification_spec (id : String) (attrs : List (String × String))
    (hlabel : dictLookup attrs "label" = some id)
    (hstyle : dictLookup attrs "style" = none ∨ dictLookup attrs "style" = some "filled") :
    (dictLookup attrs "shape" = some "ellipse" →
      ∃ r, processNode id attrs = .ok r ∧ r.kind = "theorem") ∧
    (dictLookup attrs "shape" = some "box" →
      ∃ r, processNode id attrs = .ok r ∧ r.kind = "definition") ∧
    (dictLookup attrs "shape" = none →
      processNode id attrs = .error "Node missing shape attribute") ∧
    (∀ v, dictLookup attrs "shape" = some v → v ≠ "ellipse" → v ≠ "box" →
      processNode id attrs = .error ("Unknown shape: " ++ v)) ∧
    (∀ r, processNode id attrs = .ok r →
      ((dictLookup attrs "color" = none → r.typeStatus = "unknown") ∧
       (dictLookup attrs "color" = some "green" → r.typeStatus = "stated") ∧
       (dictLookup attrs "color" = some "blue" → r.typeStatus = "can-state") ∧
       (dictLookup attrs "color" = some "#FFAA33" → r.typeStatus = "not-ready") ∧
       (dictLookup attrs "color" = some "darkgreen" → r.typeStatus = "mathlib") ∧
       (∀ c, dictLookup attrs "color" = some c →
         c ≠ "green" → c ≠ "blue" → c ≠ "#FFAA33" → c ≠ "darkgreen" →
         r.typeStatus = "unrecognized") ∧
       (dictLookup attrs "fillcolor" = none → r.termStatus = "unknown") ∧
       (dictLookup attrs "fillcolor" = some "#9CEC8B" → r.termStatus = "proved") ∧
       (dictLookup attrs "fillcolor" = some "#B0ECA3" → r.termStatus = "defined") ∧
       (dictLookup attrs "fillcolor" = some "#A3D6FF" → r.termStatus = "can-prove") ∧
       (dictLookup attrs "fillcolor" = some "#1CAC78" → r.termStatus = "fully-proved") ∧
       (∀ c, dictLookup attrs "fillcolor" = some c →
         c ≠ "#9CEC8B" → c ≠ "#B0ECA3" → c ≠ "#A3D6FF" → c ≠ "#1CAC78" →
         r.termStatus = "unrecognized"))) ∧
    (∀ attrs2, attrs.Perm attrs2 → (attrs.map Prod.fst).Nodup →
      classifyResult (processNode id attrs2) = classifyResult (processNode id attrs)) := by
  refine ⟨?_, ?_, ?_, ?_, ?_, ?_⟩
  · intro hsh
    exact ⟨_, processNode_ok_form id attrs "ellipse" hsh (Or.inl rfl) hlabel hstyle, rfl⟩
  · intro hsh
    exact ⟨_, processNode_ok_form id attrs "box" hsh (Or.inr rfl) hlabel hstyle, rfl⟩
  · exact processNode_shape_missing id attrs
  · exact fun v hv h1 h2 => processNode_shape_unknown id attrs v hv h1 h2
  · intro r hok
    obtain ⟨sh, hsh, hv, _, _, hts, hterm, _⟩ := processNode_ok_inv id attrs r hok
    refine ⟨?_, ?_, ?_, ?_, ?_, ?_, ?_, ?_, ?_, ?_, ?_, ?_⟩
    · intro hc; rw [hts, hc]
    · intro hc; rw [hts, hc]; rfl
    · intro hc; rw [hts, hc]; rfl
    · intro hc; rw [hts, hc]; rfl
    · intro hc; rw [hts, hc]; rfl
    · intro c hc h1 h2 h3 h4
      rw [hts, hc]
      refine statusOf_unrecognized colorTable c ?_
      intro p hp
      rcases (by simpa [colorTable] using hp :
        p = ("green", "stated") ∨ p = ("blue", "can-state") ∨
        p = ("#FFAA33", "not-ready") ∨ p = ("darkgreen", "mathlib")) with
        rfl | rfl | rfl | rfl
      · exact fun he => h1 he.symm
      · exact fun he => h2 he.symm
      · exact fun he => h3 he.symm
      · exact fun he => h4 he.symm
    · intro hc; rw [hterm, hc]
    · intro hc; rw [hterm, hc]; rfl
    · intro hc; rw [hterm, hc]; rfl
    · intro hc; rw [hterm, hc]; rfl
    · intro hc; rw [hterm, hc]; rfl
    · intro c hc h1 h2 h3 h4
      rw [hterm, hc]
      refine statusOf_unrecognized fillcolorTable c ?_
      intro p hp
      rcases (by simpa [fillcolorTable] using hp :
        p = ("#9CEC8B", "proved") ∨ p = ("#B0ECA3", "defined") ∨
        p = ("#A3D6FF", "can-prove") ∨ p = ("#1CAC78", "fully-proved")) with
        rfl | rfl | rfl | rfl
      · exact fun he => h1 he.symm
      · exact fun he => h2 he.symm
      · exact fun he => h3 he.symm
      · exact fun he => h4 he.symm
  · intro attrs2 hperm hnd
    unfold processNode
    rw [← dictLookup_perm hperm hnd "shape", ← dictLookup_perm hperm hnd "color",
      ← dictLookup_perm hperm hnd "fillcolor", ← dictLookup_perm hperm hnd "label",
      ← dictLookup_perm hperm hnd "style"]
    exact processNodeCore_residual id _ _ _ _ _ _ _

/-- C5 witness: the node statement attributes
`label=n1, shape=ellipse, color=green, fillcolor=#9CEC8B, style=filled`
classify as a theorem. -/
theorem node_classification_spec_witness :
    ∃ r, processNode "n1"
      [("label", "n1"), ("shape", "ellipse"), ("color", "green"),
       ("fillcolor", "#9CEC8B"), ("style", "filled")] = .ok r ∧ r.kind = "theorem" :=
  (node_classification_spec "n1"
    [("label", "n1"), ("shape", "ellipse"), ("color", "green"),
     ("fillcolor", "#9CEC8B"), ("style", "filled")]
    (by rfl) (Or.inr (by rfl))).1 (by rfl)

/-! ## C2: missing or malformed payloads are soft, not fatal -/

/-- C2 counterexample: with no graph-bearing script the decode returns the
empty node mapping `Except.ok []` (after printing a diagnostic) — it does
not fail; likewise for a payload that flunks the preamble check and for a
payload with no closing brace. -/
theorem decode_soft_counterexample :
    getDepGraph [] [] = { result := .ok [], logs := [noGraphMsg] } ∧
    getDepGraph [".renderDot(`strict digraphX`)".data] [] =
      { result := .ok [], logs := [badPreambleMsg] } ∧
    getDepGraph [".renderDot(`strict digraph \"\" \x7b abc`)".data] [] =
      { result := .ok [], logs := [noBraceMsg] } := by
  refine ⟨rfl, ?_, ?_⟩ <;> decide

/-- C2 (amended): when no script block bears the digraph marker (or the
extracted payload is empty), when the payload does not begin with the
`strict digraph "" {` preamble, or when it has no closing brace, the decode
prints the corresponding diagnostic and returns an empty node mapping — the
conditions are detected, but reported softly rather than by aborting. -/
theorem decode_soft_failures (scripts : List (List Char)) (nodeInfo : List (String × String)) :
    (getDepGraphString scripts = none →
      getDepGraph scripts nodeInfo = { result := .ok [], logs := [noGraphMsg] }) ∧
    (getDepGraphString scripts = some [] →
      getDepGraph scripts nodeInfo = { result := .ok [], logs := [noGraphMsg] }) ∧
    (∀ s, getDepGraphString scripts = some s → s ≠ [] →
      ¬ digraphPreamble.isPrefixOf s →
      getDepGraph scripts nodeInfo = { result := .ok [], logs := [badPreambleMsg] }) ∧
    (∀ s, getDepGraphString scripts = some s → s ≠ [] →
      digraphPreamble.isPrefixOf s → lastIdxOf '\x7d' s = none →
      getDepGraph scripts nodeInfo = { result := .ok [], logs := [noBraceMsg] }) := by
  refine ⟨?_, ?_, ?_, ?_⟩
  · intro h
    unfold getDepGraph
    rw [h]
  · intro h
    unfold getDepGraph
    rw [h]
    dsimp only
    rw [if_pos rfl]
  · intro s hs hne hpre
    unfold getDepGraph
    rw [hs]
    dsimp only
    rw [if_neg hne, if_pos hpre]
  · intro s hs hne hpre hbrace
    unfold getDepGraph
    rw [hs]
    dsimp only
    rw [if_neg hne, if_neg (fun hn => hn hpre), hbrace]

/-- C2 witness: the amended statement applied to a document with a single
script that lacks the marker entirely. -/
theorem decode_soft_failures_witness :
    getDepGraph ["no graph here".data] [] = { result := .ok [], logs := [noGraphMsg] } :=
  (decode_soft_failures ["no graph here".data] []).1 (by decide)
